import Mathlib

/-!
Shallow embedding of the tools-configuration core of the
`mcp-server-azure-devops` repository (file `src/shared/config/tools-config.ts`):
the static feature/tool catalog, the zod configuration schema, the config
loader, and the pure resolver functions (`isFeatureEnabled`, `isToolEnabled`,
`getEnabledTools`, `getDisabledTools`).

Conventions of the embedding:
* TypeScript string-literal union `FeatureName` becomes an inductive type with
  a `toString` rendering; the closed list `FEATURE_NAMES` is kept in source
  order.
* JavaScript objects appearing as data (the parsed JSON, the `features` record
  of a configuration, the derived `TOOL_TO_FEATURE` record) become association
  lists keyed by strings, looked up by first occurrence; objects produced by
  `JSON.parse` have distinct keys, so first-occurrence lookup agrees with the
  JavaScript property lookup.  Record update `acc[tool] = feature` becomes
  `assocUpdate`, which overwrites an existing binding in place and otherwise
  appends, exactly as JavaScript property assignment does.
* The file system, the `AZURE_DEVOPS_TOOLS_CONFIG` environment variable and
  the working directory are packaged in a `World`; the contents of a file are
  abstracted to their `JSON.parse` outcome (the spec scopes parsing mechanics
  out: "load bytes, parse JSON"), so a readable file carries either a parsed
  `JsonValue` or the parser message of the `SyntaxError`.
* Thrown JavaScript errors become the `LoadError` inductive; the message the
  code interpolates into `new Error(...)` is reconstructed by
  `LoadError.message`.
-/

/-- The closed feature enumeration, from `FEATURE_NAMES` in the source. -/
inductive FeatureName where
  | users
  | organizations
  | projects
  | repositories
  | workItems
  | search
  | pullRequests
  | pipelines
  | wikis
deriving DecidableEq, Repr, Fintype

/-- Rendering of a feature name to its configuration-file string. -/
def FeatureName.toString : FeatureName → String
  | .users => "users"
  | .organizations => "organizations"
  | .projects => "projects"
  | .repositories => "repositories"
  | .workItems => "work-items"
  | .search => "search"
  | .pullRequests => "pull-requests"
  | .pipelines => "pipelines"
  | .wikis => "wikis"

/-- `FEATURE_NAMES`: the feature list in source order. -/
def FEATURE_NAMES : List FeatureName :=
  [.users, .organizations, .projects, .repositories, .workItems,
   .search, .pullRequests, .pipelines, .wikis]

/-- `FEATURE_TOOLS`: the static mapping of feature names to their tool names. -/
def FEATURE_TOOLS : FeatureName → List String
  | .users => ["get_me"]
  | .organizations => ["list_organizations"]
  | .projects => ["list_projects", "get_project", "get_project_details"]
  | .repositories =>
      ["get_repository", "get_repository_details", "list_repositories",
       "get_file_content", "get_all_repositories_tree", "get_repository_tree",
       "create_branch", "create_commit", "list_commits"]
  | .workItems =>
      ["list_work_items", "get_work_item", "create_work_item",
       "update_work_item", "manage_work_item_link"]
  | .search => ["search_code", "search_wiki", "search_work_items"]
  | .pullRequests =>
      ["create_pull_request", "list_pull_requests", "get_pull_request_comments",
       "add_pull_request_comment", "update_pull_request",
       "get_pull_request_changes", "get_pull_request_checks",
       "update_pull_request_comment"]
  | .pipelines =>
      ["list_pipelines", "get_pipeline", "list_pipeline_runs",
       "get_pipeline_run", "download_pipeline_artifact", "pipeline_timeline",
       "get_pipeline_log", "trigger_pipeline"]
  | .wikis =>
      ["get_wikis", "get_wiki_page", "create_wiki", "update_wiki_page",
       "list_wiki_pages", "create_wiki_page"]

/-- JavaScript property assignment `acc[k] = v` on an object represented as an
association list: overwrite the binding in place if `k` is present, else
append it. -/
def assocUpdate (l : List (String × FeatureName)) (k : String) (v : FeatureName) :
    List (String × FeatureName) :=
  match l with
  | [] => [(k, v)]
  | (k2, v2) :: rest =>
      if k2 = k then (k, v) :: rest else (k2, v2) :: assocUpdate rest k v

/-- The entries of the derived `TOOL_TO_FEATURE` record: the
`Object.entries(FEATURE_TOOLS).reduce` of the source, iterating features in
declaration order and assigning `acc[tool] = feature` for each tool. -/
def TOOL_TO_FEATURE_entries : List (String × FeatureName) :=
  FEATURE_NAMES.foldl
    (fun acc f => (FEATURE_TOOLS f).foldl (fun a t => assocUpdate a t f) acc)
    []

/-- `TOOL_TO_FEATURE[tool]`: lookup in the derived record (`none` models the
JavaScript `undefined` for an unregistered tool). -/
def TOOL_TO_FEATURE (tool : String) : Option FeatureName :=
  TOOL_TO_FEATURE_entries.lookup tool

/-- The `tools` part of a configuration. -/
structure ToolsSettings where
  disabled : List String
deriving DecidableEq, Repr

/-- A normalized configuration (`ToolsConfig` in the source): feature
overrides as an association list over the closed enumeration, plus the
explicit disable list.  After schema parsing both fields are always
present (the schema supplies defaults). -/
structure ToolsConfig where
  features : List (FeatureName × Bool)
  tools : ToolsSettings
deriving DecidableEq, Repr

/-- `DEFAULT_TOOLS_CONFIG`: all features enabled, no tools disabled. -/
def DEFAULT_TOOLS_CONFIG : ToolsConfig :=
  { features := [], tools := { disabled := [] } }

/-- `isFeatureEnabled`: `config.features[featureName]` if present, else
`true`. -/
def isFeatureEnabled (featureName : FeatureName) (config : ToolsConfig) : Bool :=
  match config.features.lookup featureName with
  | none => true
  | some b => b

/-- `isToolEnabled`: disabled when the owning feature (if any) is disabled or
when the tool is listed in `config.tools.disabled`; enabled otherwise. -/
def isToolEnabled (toolName : String) (config : ToolsConfig) : Bool :=
  if (match TOOL_TO_FEATURE toolName with
      | some featureName => !(isFeatureEnabled featureName config)
      | none => false) then
    false
  else if config.tools.disabled.contains toolName then
    false
  else
    true

/-- `getEnabledTools`: filter the candidate list by `isToolEnabled`. -/
def getEnabledTools (allToolNames : List String) (config : ToolsConfig) :
    List String :=
  allToolNames.filter (fun toolName => isToolEnabled toolName config)

/-- `getDisabledTools`: filter the candidate list by the negation of
`isToolEnabled`. -/
def getDisabledTools (allToolNames : List String) (config : ToolsConfig) :
    List String :=
  allToolNames.filter (fun toolName => !(isToolEnabled toolName config))

/-- A parsed JSON value, the result of `JSON.parse`.  Numbers are modelled as
integers: no claim depends on numeric values, only on the type tag.  Objects
are association lists in key order; an object produced by `JSON.parse` has
distinct keys. -/
inductive JsonValue where
  | jnull
  | jbool (b : Bool)
  | jnum (n : Int)
  | jstr (s : String)
  | jarr (elems : List JsonValue)
  | jobj (fields : List (String × JsonValue))

/-- The zod type tag of a JSON value, used in issue messages. -/
def typeName : JsonValue → String
  | .jnull => "null"
  | .jbool _ => "boolean"
  | .jnum _ => "number"
  | .jstr _ => "string"
  | .jarr _ => "array"
  | .jobj _ => "object"

/-- One zod validation issue: a path into the value and a message. -/
structure Issue where
  path : List String
  message : String
deriving DecidableEq, Repr

/-- The feature name, if any, whose configuration-file string is `s`
(the `z.enum(FEATURE_NAMES)` key check). -/
def featureNameOfString (s : String) : Option FeatureName :=
  FEATURE_NAMES.find? (fun f => f.toString == s)

/-- Issues contributed by one entry of the `features` record: the key must be
a member of the closed feature enumeration and the value must be a boolean. -/
def featureEntryIssues (k : String) (v : JsonValue) : List Issue :=
  (match featureNameOfString k with
   | none => [⟨["features", k], "Invalid enum value"⟩]
   | some _ => [])
  ++ (match v with
   | .jbool _ => []
   | w => [⟨["features", k], "Expected boolean, received " ++ typeName w⟩])

/-- Parse the value at key `features`: must be an object; every key must be a
feature name and every value a boolean.  All issues are collected, in entry
order. -/
def parseFeaturesValue : JsonValue → Except (List Issue) (List (FeatureName × Bool))
  | .jobj fields =>
      let issues := (fields.map (fun kv => featureEntryIssues kv.1 kv.2)).flatten
      if issues = [] then
        .ok (fields.filterMap (fun kv =>
          match featureNameOfString kv.1, kv.2 with
          | some f, .jbool b => some (f, b)
          | _, _ => none))
      else .error issues
  | v => .error [⟨["features"], "Expected object, received " ++ typeName v⟩]

/-- Issue contributed by one element of the `tools.disabled` array: it must
be a string. -/
def disabledElemIssues (idx : Nat) : JsonValue → List Issue
  | .jstr _ => []
  | v => [⟨["tools", "disabled", toString idx],
          "Expected string, received " ++ typeName v⟩]

/-- Parse the value at key `tools.disabled`: must be an array of strings.
Issues carry the offending index in their path. -/
def parseDisabledValue : JsonValue → Except (List Issue) (List String)
  | .jarr elems =>
      let issues :=
        (elems.enum.map (fun p => disabledElemIssues p.1 p.2)).flatten
      if issues = [] then
        .ok (elems.filterMap (fun v =>
          match v with
          | .jstr s => some s
          | _ => none))
      else .error issues
  | v => .error [⟨["tools", "disabled"], "Expected array, received " ++ typeName v⟩]

/-- Parse the value at key `tools`: must be an object; its `disabled` key, if
present, is an array of strings, defaulting to the empty list; unknown keys
inside `tools` are stripped. -/
def parseToolsValue : JsonValue → Except (List Issue) ToolsSettings
  | .jobj fields =>
      match List.lookup "disabled" fields with
      | none => .ok { disabled := [] }
      | some dv =>
          match parseDisabledValue dv with
          | .ok ds => .ok { disabled := ds }
          | .error issues => .error issues
  | v => .error [⟨["tools"], "Expected object, received " ++ typeName v⟩]

/-- Combine the outcomes of the two shape keys of the top-level object, in
shape declaration order (`features` first, then `tools`): succeed when both
succeed, otherwise concatenate the issues of the failing keys. -/
def combineResults (fRes : Except (List Issue) (List (FeatureName × Bool)))
    (tRes : Except (List Issue) ToolsSettings) :
    Except (List Issue) ToolsConfig :=
  match fRes, tRes with
  | .ok fs, .ok ts => .ok { features := fs, tools := ts }
  | .error e1, .error e2 => .error (e1 ++ e2)
  | .error e1, .ok _ => .error e1
  | .ok _, .error e2 => .error e2

/-- `ToolsConfigSchema.parse`: the whole zod schema.  `none` models the
JavaScript `undefined`, turned into `{}` by the outer `.default({})`; a
non-object value is rejected; on an object, the `features` and `tools` keys
are parsed (each defaulting when absent), unknown top-level keys are
stripped, and issues from both keys are concatenated in shape order. -/
def toolsConfigSchemaParse : Option JsonValue → Except (List Issue) ToolsConfig
  | none => .ok DEFAULT_TOOLS_CONFIG
  | some (.jobj fields) =>
      combineResults
        (match List.lookup "features" fields with
         | none => .ok []
         | some fv => parseFeaturesValue fv)
        (match List.lookup "tools" fields with
         | none => .ok { disabled := [] }
         | some tv => parseToolsValue tv)
  | some v => .error [⟨[], "Expected object, received " ++ typeName v⟩]

/-- Whether a schema parse outcome is a validation failure. -/
def isValidationFailure : Except (List Issue) ToolsConfig → Bool
  | .error _ => true
  | .ok _ => false

/-- The state of the file system at one path: absent, readable with the given
`JSON.parse` outcome (`Except.error` carries the `SyntaxError` message for
contents that are not valid JSON), or failing to read with an I/O error. -/
inductive FileState where
  | absent
  | readable (parseOutcome : Except String JsonValue)
  | readError (ioMessage : String)

/-- The process environment the loader consults: the
`AZURE_DEVOPS_TOOLS_CONFIG` environment variable (`none` when unset), the
working directory `process.cwd()`, and the file system. -/
structure World where
  envVar : Option String
  cwd : String
  fileAt : String → FileState

/-- `path.join(dir, file)`. -/
def pathJoin (dir file : String) : String := dir ++ "/" ++ file

/-- The `effectivePath` computation of `loadToolsConfig`:
`configPath || process.env.AZURE_DEVOPS_TOOLS_CONFIG ||
path.join(process.cwd(), tools.config.json)`.  JavaScript `||` skips falsy
operands, so an absent or empty string falls through to the next
alternative. -/
def effectivePath (configPath : Option String) (envVar : Option String)
    (cwd : String) : String :=
  let c := configPath.getD ""
  if c ≠ "" then c
  else
    let e := envVar.getD ""
    if e ≠ "" then e
    else pathJoin cwd "tools.config.json"

/-- A failure of `loadToolsConfig`.  The source throws plain `Error`s; the
constructors keep the data the thrown message is built from, and
`LoadError.message` rebuilds that message. -/
inductive LoadError where
  | parseError (path : String) (parserMessage : String)
  | validationError (path : String) (issues : List Issue)
  | ioError (ioMessage : String)
deriving DecidableEq, Repr

/-- The one-line rendering of a single validation issue:
two spaces, a dash, the dotted path, a colon, the message. -/
def formatIssue (i : Issue) : String :=
  "  - " ++ String.intercalate "." i.path ++ ": " ++ i.message

/-- The message of the `Error` the source throws for each failure kind. -/
def LoadError.message : LoadError → String
  | .parseError p m => "Invalid JSON in tools config file at " ++ p ++ ": " ++ m
  | .validationError p issues =>
      "Invalid tools config file at " ++ p ++ ":\n"
        ++ String.intercalate "\n" (issues.map formatIssue)
  | .ioError m => m

/-- `loadToolsConfig`: resolve the effective path; return the default
configuration when the file is absent; otherwise read and `JSON.parse` the
contents and validate them against the schema, mapping a `SyntaxError` to the
parse-error failure, a `ZodError` to the validation failure, and passing any
other error through unchanged. -/
def loadToolsConfig (w : World) (configPath : Option String) :
    Except LoadError ToolsConfig :=
  let p := effectivePath configPath w.envVar w.cwd
  match w.fileAt p with
  | .absent => .ok DEFAULT_TOOLS_CONFIG
  | .readError m => .error (.ioError m)
  | .readable (.error parseMsg) => .error (.parseError p parseMsg)
  | .readable (.ok json) =>
      match toolsConfigSchemaParse (some json) with
      | .ok cfg => .ok cfg
      | .error issues => .error (.validationError p issues)

theorem lookup_assocUpdate (l : List (String × FeatureName)) (k : String)
    (v : FeatureName) (s : String) :
    List.lookup s (assocUpdate l k v) =
      if s = k then some v else List.lookup s l := by
  induction l with
  | nil =>
      by_cases hs : s = k
      · simp [assocUpdate, List.lookup, hs]
      · have hb : (s == k) = false := beq_false_of_ne hs
        simp [assocUpdate, List.lookup, hb, hs]
  | cons hd tl ih =>
      obtain ⟨k2, v2⟩ := hd
      by_cases hkk : k2 = k
      · subst hkk
        by_cases hs : s = k2
        · subst hs
          simp [assocUpdate, List.lookup]
        · have hb : (s == k2) = false := beq_false_of_ne hs
          simp [assocUpdate, List.lookup, hb, hs]
      · by_cases hs : s = k2
        · subst hs
          have hsk : ¬s = k := hkk
          simp [assocUpdate, if_neg hkk, List.lookup, if_neg hsk]
        · have hb : (s == k2) = false := beq_false_of_ne hs
          simp [assocUpdate, if_neg hkk, List.lookup, hb, ih]

theorem lookup_foldl_inner (ts : List String) (f : FeatureName)
    (acc : List (String × FeatureName)) (t : String) :
    List.lookup t (ts.foldl (fun a s => assocUpdate a s f) acc) =
      if t ∈ ts then some f else List.lookup t acc := by
  induction ts generalizing acc with
  | nil => simp
  | cons hd tl ih =>
      simp only [List.foldl_cons, ih, lookup_assocUpdate, List.mem_cons]
      by_cases htl : t ∈ tl
      · simp [htl]
      · by_cases hhd : t = hd <;> simp [htl, hhd]

theorem lookup_build_untouched (fs : List FeatureName)
    (acc : List (String × FeatureName)) (t : String)
    (h : ∀ f ∈ fs, t ∉ FEATURE_TOOLS f) :
    List.lookup t
        (fs.foldl
          (fun a f => (FEATURE_TOOLS f).foldl (fun b s => assocUpdate b s f) a)
          acc) =
      List.lookup t acc := by
  induction fs generalizing acc with
  | nil => simp
  | cons hd tl ih =>
      simp only [List.foldl_cons]
      rw [ih _ fun f hf => h f (List.mem_cons_of_mem hd hf),
        lookup_foldl_inner]
      simp [h hd (List.mem_cons_self hd tl)]

theorem mem_FEATURE_NAMES (f : FeatureName) : f ∈ FEATURE_NAMES := by
  cases f <;> simp [FEATURE_NAMES]

theorem featureTools_disjoint (f g : FeatureName) (hfg : f ≠ g) (t : String)
    (hf : t ∈ FEATURE_TOOLS f) : t ∉ FEATURE_TOOLS g := by
  have H : ∀ f g : FeatureName, f ≠ g → ∀ t ∈ FEATURE_TOOLS f,
      t ∉ FEATURE_TOOLS g := by decide
  exact H f g hfg t hf

theorem TOOL_TO_FEATURE_of_mem (f : FeatureName) (t : String)
    (h : t ∈ FEATURE_TOOLS f) : TOOL_TO_FEATURE t = some f := by
  have H : ∀ f : FeatureName, ∀ t ∈ FEATURE_TOOLS f,
      TOOL_TO_FEATURE t = some f := by decide
  exact H f t h

theorem TOOL_TO_FEATURE_of_unregistered (t : String)
    (h : ∀ f, t ∉ FEATURE_TOOLS f) : TOOL_TO_FEATURE t = none := by
  unfold TOOL_TO_FEATURE TOOL_TO_FEATURE_entries
  rw [lookup_build_untouched FEATURE_NAMES [] t fun f _ => h f]
  simp

theorem isToolEnabled_true_iff (t : String) (c : ToolsConfig) :
    isToolEnabled t c = true ↔
      (∀ f : FeatureName, TOOL_TO_FEATURE t = some f → isFeatureEnabled f c = true)
      ∧ t ∉ c.tools.disabled := by
  unfold isToolEnabled
  cases h : TOOL_TO_FEATURE t with
  | none =>
      by_cases hd : t ∈ c.tools.disabled <;>
        simp [h, hd, List.contains, List.elem_iff]
  | some f =>
      by_cases hd : t ∈ c.tools.disabled <;>
        cases hfe : isFeatureEnabled f c <;>
          simp [h, hd, hfe, List.contains, List.elem_iff]

/-- C1: `isToolEnabled` returns `false` when the owning feature is disabled,
`false` when the tool is listed in `config.tools.disabled`, and `true`
otherwise; disabling a feature disables every tool in its catalog list, and a
tool with no registered feature and no disable entry is enabled. -/
theorem isToolEnabled_spec (t : String) (c : ToolsConfig) :
    (∀ f : FeatureName, TOOL_TO_FEATURE t = some f → isFeatureEnabled f c = false →
        isToolEnabled t c = false)
  ∧ (t ∈ c.tools.disabled → isToolEnabled t c = false)
  ∧ ((∀ f : FeatureName, TOOL_TO_FEATURE t = some f → isFeatureEnabled f c = true) →
        t ∉ c.tools.disabled → isToolEnabled t c = true)
  ∧ (∀ f : FeatureName, List.lookup f c.features = some false →
        ∀ s ∈ FEATURE_TOOLS f, isToolEnabled s c = false)
  ∧ (TOOL_TO_FEATURE t = none → t ∉ c.tools.disabled → isToolEnabled t c = true) := by
  refine ⟨?_, ?_, ?_, ?_, ?_⟩
  · intro f hf hfe
    rw [Bool.eq_false_iff]
    intro htrue
    have := ((isToolEnabled_true_iff t c).1 htrue).1 f hf
    rw [this] at hfe
    exact Bool.noConfusion hfe
  · intro hd
    rw [Bool.eq_false_iff]
    intro htrue
    exact ((isToolEnabled_true_iff t c).1 htrue).2 hd
  · intro hfeat hd
    exact (isToolEnabled_true_iff t c).2 ⟨hfeat, hd⟩
  · intro f hlook s hs
    rw [Bool.eq_false_iff]
    intro htrue
    have hown : TOOL_TO_FEATURE s = some f := TOOL_TO_FEATURE_of_mem f s hs
    have := ((isToolEnabled_true_iff s c).1 htrue).1 f hown
    rw [isFeatureEnabled, hlook] at this
    exact Bool.noConfusion this
  · intro hnone hd
    refine (isToolEnabled_true_iff t c).2 ⟨?_, hd⟩
    intro f hf
    rw [hnone] at hf
    exact (Option.noConfusion hf)

theorem isToolEnabled_spec_witness :
    isToolEnabled "trigger_pipeline"
      { features := [(.pipelines, false)], tools := { disabled := ["get_me"] } } = false
  ∧ isToolEnabled "get_me"
      { features := [(.pipelines, false)], tools := { disabled := ["get_me"] } } = false
  ∧ isToolEnabled "get_wiki_page"
      { features := [(.pipelines, false)], tools := { disabled := ["get_me"] } } = true
  ∧ isToolEnabled "list_pipelines"
      { features := [(.pipelines, false)], tools := { disabled := ["get_me"] } } = false
  ∧ isToolEnabled "some_unregistered_tool"
      { features := [(.pipelines, false)], tools := { disabled := ["get_me"] } } = true :=
  ⟨(isToolEnabled_spec "trigger_pipeline"
      { features := [(.pipelines, false)], tools := { disabled := ["get_me"] } }).1
      .pipelines (by decide) (by decide),
   (isToolEnabled_spec "get_me"
      { features := [(.pipelines, false)], tools := { disabled := ["get_me"] } }).2.1
      (by decide),
   (isToolEnabled_spec "get_wiki_page"
      { features := [(.pipelines, false)], tools := { disabled := ["get_me"] } }).2.2.1
      (by decide) (by decide),
   (isToolEnabled_spec "list_pipelines"
      { features := [(.pipelines, false)], tools := { disabled := ["get_me"] } }).2.2.2.1
      .pipelines (by decide) "list_pipelines" (by decide),
   (isToolEnabled_spec "some_unregistered_tool"
      { features := [(.pipelines, false)], tools := { disabled := ["get_me"] } }).2.2.2.2
      (by decide) (by decide)⟩

/-- C2: `getEnabledTools` and `getDisabledTools` partition the candidate list
exactly — their union (as sets) is the input list, their intersection is
empty, each preserves the input order (is a sublist of the input), and
membership in the enabled output coincides with `isToolEnabled`. -/
theorem getTools_partition (L : List String) (c : ToolsConfig) :
    (∀ t, (t ∈ getEnabledTools L c ∨ t ∈ getDisabledTools L c) ↔ t ∈ L)
  ∧ (∀ t, ¬(t ∈ getEnabledTools L c ∧ t ∈ getDisabledTools L c))
  ∧ List.Sublist (getEnabledTools L c) L
  ∧ List.Sublist (getDisabledTools L c) L
  ∧ (∀ t, t ∈ getEnabledTools L c ↔ t ∈ L ∧ isToolEnabled t c = true)
  ∧ (∀ t, t ∈ getDisabledTools L c ↔ t ∈ L ∧ isToolEnabled t c = false) := by
  refine ⟨?_, ?_, List.filter_sublist L, List.filter_sublist L, ?_, ?_⟩
  · intro t
    cases h : isToolEnabled t c <;>
      simp [getEnabledTools, getDisabledTools, List.mem_filter, h]
  · intro t
    cases h : isToolEnabled t c <;>
      simp [getEnabledTools, getDisabledTools, List.mem_filter, h]
  · intro t
    simp [getEnabledTools, List.mem_filter]
  · intro t
    simp [getDisabledTools, List.mem_filter]

theorem getTools_partition_witness :
    "get_wiki_page" ∈ getEnabledTools ["trigger_pipeline", "get_wiki_page"]
      { features := [(.pipelines, false)], tools := { disabled := [] } }
  ∧ "trigger_pipeline" ∈ getDisabledTools ["trigger_pipeline", "get_wiki_page"]
      { features := [(.pipelines, false)], tools := { disabled := [] } } :=
  ⟨((getTools_partition ["trigger_pipeline", "get_wiki_page"]
      { features := [(.pipelines, false)], tools := { disabled := [] } }).2.2.2.2.1
      "get_wiki_page").mpr ⟨by decide, by decide⟩,
   ((getTools_partition ["trigger_pipeline", "get_wiki_page"]
      { features := [(.pipelines, false)], tools := { disabled := [] } }).2.2.2.2.2
      "trigger_pipeline").mpr ⟨by decide, by decide⟩⟩

/-- C3: the catalog tool lists are pairwise disjoint across features, the
derived reverse index maps every tool of every feature list back to that
feature, and has no entry for a tool appearing in the list of no feature. -/
theorem catalog_invariants :
    (∀ f g : FeatureName, f ≠ g → ∀ t ∈ FEATURE_TOOLS f, t ∉ FEATURE_TOOLS g)
  ∧ (∀ f : FeatureName, ∀ t ∈ FEATURE_TOOLS f, TOOL_TO_FEATURE t = some f)
  ∧ (∀ t : String, (∀ f : FeatureName, t ∉ FEATURE_TOOLS f) →
        TOOL_TO_FEATURE t = none) :=
  ⟨fun f g hfg t hf => featureTools_disjoint f g hfg t hf,
   fun f t ht => TOOL_TO_FEATURE_of_mem f t ht,
   fun t h => TOOL_TO_FEATURE_of_unregistered t h⟩

theorem catalog_invariants_witness :
    TOOL_TO_FEATURE "trigger_pipeline" = some FeatureName.pipelines
  ∧ TOOL_TO_FEATURE "no_such_tool" = none
  ∧ "get_me" ∉ FEATURE_TOOLS FeatureName.wikis :=
  ⟨catalog_invariants.2.1 FeatureName.pipelines "trigger_pipeline" (by decide),
   catalog_invariants.2.2 "no_such_tool" (by decide),
   catalog_invariants.1 FeatureName.users FeatureName.wikis (by decide)
     "get_me" (by decide)⟩

/-- C6: `isFeatureEnabled` returns the configured override when the feature
key is present and `true` when it is absent; in particular every feature is
enabled under the default configuration. -/
theorem isFeatureEnabled_spec (f : FeatureName) (c : ToolsConfig) :
    (∀ b : Bool, List.lookup f c.features = some b → isFeatureEnabled f c = b)
  ∧ (List.lookup f c.features = none → isFeatureEnabled f c = true)
  ∧ isFeatureEnabled f DEFAULT_TOOLS_CONFIG = true := by
  refine ⟨?_, ?_, rfl⟩
  · intro b hb
    rw [isFeatureEnabled, hb]
  · intro hb
    rw [isFeatureEnabled, hb]

theorem isFeatureEnabled_spec_witness :
    isFeatureEnabled .pipelines
      { features := [(.pipelines, false)], tools := { disabled := [] } } = false
  ∧ isFeatureEnabled .wikis
      { features := [(.pipelines, false)], tools := { disabled := [] } } = true
  ∧ isFeatureEnabled .search DEFAULT_TOOLS_CONFIG = true :=
  ⟨(isFeatureEnabled_spec _ _).1 false (by decide),
   (isFeatureEnabled_spec _ _).2.1 (by decide),
   (isFeatureEnabled_spec .search DEFAULT_TOOLS_CONFIG).2.2⟩

theorem isValidationFailure_combine_left (e1 : List Issue)
    (tRes : Except (List Issue) ToolsSettings) :
    isValidationFailure (combineResults (.error e1) tRes) = true := by
  cases tRes <;> rfl

theorem parseFeaturesValue_error_of_issues
    (ffields : List (String × JsonValue))
    (hne : (ffields.map (fun kv => featureEntryIssues kv.1 kv.2)).flatten ≠ []) :
    parseFeaturesValue (.jobj ffields)
      = .error (ffields.map (fun kv => featureEntryIssues kv.1 kv.2)).flatten := by
  simp [parseFeaturesValue, hne]

theorem featuresIssues_ne_nil (ffields : List (String × JsonValue))
    (k : String) (v : JsonValue) (hmem : (k, v) ∈ ffields)
    (hbad : featureEntryIssues k v ≠ []) :
    (ffields.map (fun kv => featureEntryIssues kv.1 kv.2)).flatten ≠ [] := by
  obtain ⟨i, hi⟩ := List.exists_mem_of_ne_nil _ hbad
  exact List.ne_nil_of_mem
    (List.mem_flatten_of_mem
      (List.mem_map_of_mem (fun kv => featureEntryIssues kv.1 kv.2) hmem) hi)

theorem schemaParse_fail_of_bad_feature_entry
    (fields ffields : List (String × JsonValue)) (k : String) (v : JsonValue)
    (hlook : List.lookup "features" fields = some (.jobj ffields))
    (hmem : (k, v) ∈ ffields) (hbad : featureEntryIssues k v ≠ []) :
    isValidationFailure (toolsConfigSchemaParse (some (.jobj fields))) = true := by
  have hferr := parseFeaturesValue_error_of_issues ffields
    (featuresIssues_ne_nil ffields k v hmem hbad)
  simp only [toolsConfigSchemaParse, hlook, hferr]
  exact isValidationFailure_combine_left _ _

theorem disabledIssues_of_strings (ss : List String) (n : Nat) :
    ((List.enumFrom n (ss.map JsonValue.jstr)).map
        (fun p => disabledElemIssues p.1 p.2)).flatten = [] := by
  induction ss generalizing n with
  | nil => rfl
  | cons hd tl ih =>
      have henum : List.enumFrom n ((hd :: tl).map JsonValue.jstr)
          = (n, JsonValue.jstr hd)
              :: List.enumFrom (n + 1) (tl.map JsonValue.jstr) := rfl
      rw [henum, List.map_cons, List.flatten_cons, ih (n + 1)]
      rfl

theorem filterMap_jstr (ss : List String) :
    List.filterMap (fun v => match v with
      | JsonValue.jstr s => some s
      | _ => none) (ss.map JsonValue.jstr) = ss := by
  induction ss with
  | nil => rfl
  | cons hd tl ih =>
      rw [List.map_cons, List.filterMap_cons]
      exact congrArg (hd :: ·) ih

theorem parseDisabledValue_strings (ss : List String) :
    parseDisabledValue (.jarr (ss.map .jstr)) = .ok ss := by
  have h0 := disabledIssues_of_strings ss 0
  simp only [parseDisabledValue, List.enum, h0, if_pos rfl]
  exact congrArg Except.ok (filterMap_jstr ss)

/-- C8: the schema rejects a `features` object containing a key outside the
closed feature enumeration or a non-boolean value, while `tools.disabled`
accepts arbitrary strings (including tool names not in the catalog); an
absent or empty top-level value normalizes to the default configuration. -/
theorem schema_validation_spec :
    (∀ (fields ffields : List (String × JsonValue)) (k : String) (v : JsonValue),
        List.lookup "features" fields = some (.jobj ffields) →
        (k, v) ∈ ffields → featureNameOfString k = none →
        isValidationFailure (toolsConfigSchemaParse (some (.jobj fields))) = true)
  ∧ (∀ (fields ffields : List (String × JsonValue)) (k : String) (v : JsonValue),
        List.lookup "features" fields = some (.jobj ffields) →
        (k, v) ∈ ffields → (∀ b : Bool, v ≠ .jbool b) →
        isValidationFailure (toolsConfigSchemaParse (some (.jobj fields))) = true)
  ∧ (∀ ss : List String,
        toolsConfigSchemaParse (some (.jobj
            [("tools", .jobj [("disabled", .jarr (ss.map .jstr))])]))
          = .ok { features := [], tools := { disabled := ss } })
  ∧ toolsConfigSchemaParse none = .ok DEFAULT_TOOLS_CONFIG
  ∧ toolsConfigSchemaParse (some (.jobj [])) = .ok DEFAULT_TOOLS_CONFIG := by
  refine ⟨?_, ?_, ?_, rfl, rfl⟩
  · intro fields ffields k v hlook hmem hk
    refine schemaParse_fail_of_bad_feature_entry fields ffields k v hlook hmem ?_
    simp [featureEntryIssues, hk]
  · intro fields ffields k v hlook hmem hv
    refine schemaParse_fail_of_bad_feature_entry fields ffields k v hlook hmem ?_
    cases v with
    | jbool b => exact absurd rfl (hv b)
    | jnull => simp [featureEntryIssues, List.append_eq_nil]
    | jnum n => simp [featureEntryIssues, List.append_eq_nil]
    | jstr s => simp [featureEntryIssues, List.append_eq_nil]
    | jarr es => simp [featureEntryIssues, List.append_eq_nil]
    | jobj fs => simp [featureEntryIssues, List.append_eq_nil]
  · intro ss
    simp [toolsConfigSchemaParse, List.lookup, parseToolsValue,
      parseDisabledValue_strings ss, combineResults]

theorem schema_validation_spec_witness :
    isValidationFailure (toolsConfigSchemaParse (some (.jobj
        [("features", .jobj [("invalid-feature", .jbool true)])]))) = true
  ∧ isValidationFailure (toolsConfigSchemaParse (some (.jobj
        [("features", .jobj [("pipelines", .jnum 5)])]))) = true
  ∧ toolsConfigSchemaParse (some (.jobj
        [("tools", .jobj [("disabled", .jarr [.jstr "not_a_real_tool"])])]))
      = .ok { features := [], tools := { disabled := ["not_a_real_tool"] } }
  ∧ toolsConfigSchemaParse none = .ok DEFAULT_TOOLS_CONFIG
  ∧ toolsConfigSchemaParse (some (.jobj [])) = .ok DEFAULT_TOOLS_CONFIG :=
  ⟨schema_validation_spec.1
      [("features", .jobj [("invalid-feature", .jbool true)])]
      [("invalid-feature", .jbool true)] "invalid-feature" (.jbool true)
      rfl (List.mem_singleton.mpr rfl) rfl,
   schema_validation_spec.2.1
      [("features", .jobj [("pipelines", .jnum 5)])]
      [("pipelines", .jnum 5)] "pipelines" (.jnum 5)
      rfl (List.mem_singleton.mpr rfl) (fun _ h => JsonValue.noConfusion h),
   schema_validation_spec.2.2.1 ["not_a_real_tool"],
   schema_validation_spec.2.2.2.1,
   schema_validation_spec.2.2.2.2⟩

/-- C4: when the resolved configuration path does not exist on disk,
`loadToolsConfig` succeeds with the default configuration (all features
enabled, no tools disabled); a missing config file is never an error. -/
theorem loadToolsConfig_missing_file (w : World) (cp : Option String)
    (h : w.fileAt (effectivePath cp w.envVar w.cwd) = .absent) :
    loadToolsConfig w cp = .ok DEFAULT_TOOLS_CONFIG
  ∧ DEFAULT_TOOLS_CONFIG = { features := [], tools := { disabled := [] } } := by
  refine ⟨?_, rfl⟩
  simp [loadToolsConfig, h]

theorem loadToolsConfig_missing_file_witness :
    loadToolsConfig
      { envVar := none, cwd := "/home/user", fileAt := fun _ => .absent } none
      = .ok DEFAULT_TOOLS_CONFIG :=
  (loadToolsConfig_missing_file
    { envVar := none, cwd := "/home/user", fileAt := fun _ => .absent }
    none rfl).1

/-- C5: for an existing configuration file, `loadToolsConfig` fails with the
parse-error failure (offending path plus the underlying parser message)
exactly when the contents are not valid JSON, fails with the
validation-error failure (offending path plus the formatted list of every
schema issue, one line per issue with dotted path and message) exactly when
the contents are valid JSON violating the schema, and propagates any other
read error unchanged. -/
theorem loadToolsConfig_error_spec (w : World) (cp : Option String) (p : String)
    (hp : p = effectivePath cp w.envVar w.cwd) :
    (∀ m : String, w.fileAt p = .readable (.error m) →
        loadToolsConfig w cp = .error (.parseError p m)
      ∧ (LoadError.parseError p m).message =
          "Invalid JSON in tools config file at " ++ p ++ ": " ++ m)
  ∧ (∀ (j : JsonValue) (issues : List Issue),
        w.fileAt p = .readable (.ok j) →
        toolsConfigSchemaParse (some j) = .error issues →
        loadToolsConfig w cp = .error (.validationError p issues)
      ∧ (LoadError.validationError p issues).message =
          "Invalid tools config file at " ++ p ++ ":\n"
            ++ String.intercalate "\n" (issues.map (fun i =>
                "  - " ++ String.intercalate "." i.path ++ ": " ++ i.message)))
  ∧ (∀ m : String, w.fileAt p = .readError m →
        loadToolsConfig w cp = .error (.ioError m))
  ∧ (∀ e : LoadError, loadToolsConfig w cp = .error e →
        (∃ m, e = .parseError p m ∧ w.fileAt p = .readable (.error m))
      ∨ (∃ issues j, e = .validationError p issues
            ∧ w.fileAt p = .readable (.ok j)
            ∧ toolsConfigSchemaParse (some j) = .error issues)
      ∨ (∃ m, e = .ioError m ∧ w.fileAt p = .readError m)) := by
  subst hp
  refine ⟨?_, ?_, ?_, ?_⟩
  · intro m hm
    exact ⟨by simp [loadToolsConfig, hm], by simp [LoadError.message]⟩
  · intro j issues hj hparse
    exact ⟨by simp [loadToolsConfig, hj, hparse], rfl⟩
  · intro m hm
    simp [loadToolsConfig, hm]
  · intro e he
    cases hf : w.fileAt (effectivePath cp w.envVar w.cwd) with
    | absent =>
        simp only [loadToolsConfig, hf] at he
        exact absurd he (by simp)
    | readError m =>
        simp only [loadToolsConfig, hf] at he
        right; right
        exact ⟨m, by simpa using he.symm, rfl⟩
    | readable pr =>
        cases pr with
        | error m =>
            simp only [loadToolsConfig, hf] at he
            left
            exact ⟨m, by simpa using he.symm, rfl⟩
        | ok j =>
            simp only [loadToolsConfig, hf] at he
            cases hres : toolsConfigSchemaParse (some j) with
            | ok cfg =>
                rw [hres] at he
                exact absurd he (by simp)
            | error issues =>
                rw [hres] at he
                right; left
                exact ⟨issues, j, by simpa using he.symm, rfl, hres⟩

theorem loadToolsConfig_error_spec_witness :
    loadToolsConfig
      { envVar := none, cwd := "/w",
        fileAt := fun q => if q = "/cfg/bad.json"
          then .readable (.error "Unexpected token i in JSON at position 2")
          else .absent }
      (some "/cfg/bad.json")
      = .error (.parseError "/cfg/bad.json"
          "Unexpected token i in JSON at position 2")
  ∧ loadToolsConfig
      { envVar := some "/cfg/val.json", cwd := "/w",
        fileAt := fun q => if q = "/cfg/val.json"
          then .readable (.ok (.jobj [("features",
            .jobj [("invalid-feature", .jbool true), ("pipelines", .jnum 5)])]))
          else .absent }
      none
      = .error (.validationError "/cfg/val.json"
          [⟨["features", "invalid-feature"], "Invalid enum value"⟩,
           ⟨["features", "pipelines"], "Expected boolean, received number"⟩])
  ∧ (LoadError.validationError "/cfg/val.json"
        [⟨["features", "invalid-feature"], "Invalid enum value"⟩,
         ⟨["features", "pipelines"], "Expected boolean, received number"⟩]).message
      = "Invalid tools config file at /cfg/val.json:\n  - features.invalid-feature: Invalid enum value\n  - features.pipelines: Expected boolean, received number"
  ∧ loadToolsConfig
      { envVar := none, cwd := "/w",
        fileAt := fun q => if q = "/w/tools.config.json"
          then .readError "EACCES: permission denied"
          else .absent }
      none
      = .error (.ioError "EACCES: permission denied") :=
  ⟨((loadToolsConfig_error_spec _ (some "/cfg/bad.json") "/cfg/bad.json" rfl).1
      "Unexpected token i in JSON at position 2" (by simp)).1,
   ((loadToolsConfig_error_spec
      { envVar := some "/cfg/val.json", cwd := "/w",
        fileAt := fun q => if q = "/cfg/val.json"
          then .readable (.ok (.jobj [("features",
            .jobj [("invalid-feature", .jbool true), ("pipelines", .jnum 5)])]))
          else .absent }
      none "/cfg/val.json" rfl).2.1
      (.jobj [("features",
        .jobj [("invalid-feature", .jbool true), ("pipelines", .jnum 5)])])
      [⟨["features", "invalid-feature"], "Invalid enum value"⟩,
       ⟨["features", "pipelines"], "Expected boolean, received number"⟩]
      (by simp) rfl).1,
   (((loadToolsConfig_error_spec
      { envVar := some "/cfg/val.json", cwd := "/w",
        fileAt := fun q => if q = "/cfg/val.json"
          then .readable (.ok (.jobj [("features",
            .jobj [("invalid-feature", .jbool true), ("pipelines", .jnum 5)])]))
          else .absent }
      none "/cfg/val.json" rfl).2.1
      (.jobj [("features",
        .jobj [("invalid-feature", .jbool true), ("pipelines", .jnum 5)])])
      [⟨["features", "invalid-feature"], "Invalid enum value"⟩,
       ⟨["features", "pipelines"], "Expected boolean, received number"⟩]
      (by simp) rfl).2).trans rfl,
   (loadToolsConfig_error_spec
      { envVar := none, cwd := "/w",
        fileAt := fun q => if q = "/w/tools.config.json"
          then .readError "EACCES: permission denied"
          else .absent }
      none "/w/tools.config.json" rfl).2.2.1
      "EACCES: permission denied" (by simp)⟩

/-- C7: `loadToolsConfig` resolves its source path in the order: a nonempty
explicit path parameter, else a nonempty `AZURE_DEVOPS_TOOLS_CONFIG`
environment value, else `tools.config.json` joined to the working directory;
and the result of `loadToolsConfig` depends on the file system only through
the file at that resolved path. -/
theorem effectivePath_resolution (cwd : String) :
    (∀ p : String, p ≠ "" → ∀ env : Option String,
        effectivePath (some p) env cwd = p)
  ∧ (∀ e : String, e ≠ "" → ∀ cp : Option String, cp.getD "" = "" →
        effectivePath cp (some e) cwd = e)
  ∧ (∀ (cp env : Option String), cp.getD "" = "" → env.getD "" = "" →
        effectivePath cp env cwd = pathJoin cwd "tools.config.json")
  ∧ pathJoin cwd "tools.config.json" = cwd ++ "/" ++ "tools.config.json"
  ∧ (∀ (w1 w2 : World) (cp : Option String),
        w1.envVar = w2.envVar → w1.cwd = w2.cwd →
        w1.fileAt (effectivePath cp w1.envVar w1.cwd)
          = w2.fileAt (effectivePath cp w2.envVar w2.cwd) →
        loadToolsConfig w1 cp = loadToolsConfig w2 cp) := by
  refine ⟨?_, ?_, ?_, rfl, ?_⟩
  · intro p hp env
    simp [effectivePath, hp]
  · intro e he cp hcp
    simp [effectivePath, hcp, he]
  · intro cp env hcp henv
    simp [effectivePath, hcp, henv]
  · intro w1 w2 cp henv hcwd hfile
    simp only [loadToolsConfig]
    rw [henv, hcwd] at hfile
    rw [henv, hcwd, hfile]

theorem effectivePath_resolution_witness :
    effectivePath (some "/explicit/cfg.json") (some "/env/cfg.json") "/w"
      = "/explicit/cfg.json"
  ∧ effectivePath none (some "/env/cfg.json") "/w" = "/env/cfg.json"
  ∧ effectivePath none none "/w" = pathJoin "/w" "tools.config.json"
  ∧ pathJoin "/w" "tools.config.json" = "/w/tools.config.json" :=
  ⟨(effectivePath_resolution "/w").1 "/explicit/cfg.json" (by decide)
      (some "/env/cfg.json"),
   (effectivePath_resolution "/w").2.1 "/env/cfg.json" (by decide) none rfl,
   (effectivePath_resolution "/w").2.2.1 none none rfl rfl,
   ((effectivePath_resolution "/w").2.2.2.1).trans rfl⟩

/-- C9: an empty string supplied as the explicit path parameter is treated
exactly as if no path were supplied: resolution falls through to the
environment variable and then to the default filename, and `loadToolsConfig`
behaves identically. -/
theorem emptyString_configPath :
    (∀ (env : Option String) (cwd : String),
        effectivePath (some "") env cwd = effectivePath none env cwd)
  ∧ (∀ (e : String), e ≠ "" → ∀ cwd : String,
        effectivePath (some "") (some e) cwd = e)
  ∧ (∀ cwd : String,
        effectivePath (some "") none cwd = pathJoin cwd "tools.config.json")
  ∧ (∀ (w : World), loadToolsConfig w (some "") = loadToolsConfig w none) := by
  refine ⟨fun env cwd => rfl, ?_, fun cwd => rfl, fun w => rfl⟩
  intro e he cwd
  simp [effectivePath, he]

theorem emptyString_configPath_witness :
    effectivePath (some "") (some "/env/cfg.json") "/w" = "/env/cfg.json"
  ∧ effectivePath (some "") none "/w" = pathJoin "/w" "tools.config.json"
  ∧ loadToolsConfig
      { envVar := none, cwd := "/w", fileAt := fun _ => .absent } (some "")
      = loadToolsConfig
          { envVar := none, cwd := "/w", fileAt := fun _ => .absent } none :=
  ⟨emptyString_configPath.2.1 "/env/cfg.json" (by decide) "/w",
   emptyString_configPath.2.2.1 "/w",
   emptyString_configPath.2.2.2
     { envVar := none, cwd := "/w", fileAt := fun _ => .absent }⟩

theorem lookup_append_cons_ne (a k : String) (v : JsonValue)
    (l1 l2 : List (String × JsonValue)) (h : a ≠ k) :
    List.lookup a (l1 ++ (k, v) :: l2) = List.lookup a (l1 ++ l2) := by
  induction l1 with
  | nil =>
      have hb : (a == k) = false := beq_false_of_ne h
      simp [List.lookup, hb]
  | cons hd tl ih =>
      obtain ⟨k2, v2⟩ := hd
      simp only [List.cons_append, List.lookup]
      cases hek : a == k2
      · simpa using ih
      · rfl

/-- C10: schema validation is permissive about unknown top-level keys —
removing a top-level key other than `features` and `tools` does not change
the parse result at all (so such keys validate successfully and are stripped
from the normalized configuration), and an object with only unknown keys
normalizes to the default configuration. -/
theorem unknown_topLevel_keys :
    (∀ (l1 l2 : List (String × JsonValue)) (k : String) (v : JsonValue),
        k ≠ "features" → k ≠ "tools" →
        toolsConfigSchemaParse (some (.jobj (l1 ++ (k, v) :: l2)))
          = toolsConfigSchemaParse (some (.jobj (l1 ++ l2))))
  ∧ (∀ u : JsonValue,
        toolsConfigSchemaParse (some (.jobj [("unknown_key", u)]))
          = .ok DEFAULT_TOOLS_CONFIG) := by
  constructor
  · intro l1 l2 k v hk1 hk2
    simp only [toolsConfigSchemaParse]
    rw [lookup_append_cons_ne "features" k v l1 l2 (Ne.symm hk1),
      lookup_append_cons_ne "tools" k v l1 l2 (Ne.symm hk2)]
  · intro u
    have hf : List.lookup "features" [("unknown_key", u)] = none := by
      simp [List.lookup]
    have ht : List.lookup "tools" [("unknown_key", u)] = none := by
      simp [List.lookup]
    simp [toolsConfigSchemaParse, hf, ht, combineResults, DEFAULT_TOOLS_CONFIG]

theorem unknown_topLevel_keys_witness :
    toolsConfigSchemaParse (some (.jobj
        [("features", .jobj [("pipelines", .jbool false)]), ("extra", .jnum 1)]))
      = .ok { features := [(.pipelines, false)], tools := { disabled := [] } }
  ∧ toolsConfigSchemaParse (some (.jobj [("unknown_key", .jstr "x")]))
      = .ok DEFAULT_TOOLS_CONFIG :=
  ⟨(unknown_topLevel_keys.1 [("features", .jobj [("pipelines", .jbool false)])]
      [] "extra" (.jnum 1) (by decide) (by decide)).trans rfl,
   unknown_topLevel_keys.2 (.jstr "x")⟩
